import Mathlib

/-!
Verification of the batched matrix-multiply dispatch core of dynet
(`src/dynet/matrix-multiply.h`).

The tensor layer (`dynet/tensor.h`) is external to the core; its buffer
layout (column-major per batch element, contiguous batch elements,
batch-count-1 operands broadcast) is modelled from the spec. Exact
arithmetic is modelled over ℚ. Buffers are flat `List ℚ` values; every
Eigen view update and every cuBLAS gemm call is modelled as a pointwise
rebuild of the output buffer.
-/

namespace Dynet

/-- Modelled from the spec: a tensor is a dimension descriptor
(rows, cols, batch_count `bd`) plus a contiguous buffer, column-major per
batch element, with batch elements laid out contiguously. -/
structure Tensor where
  rows : Nat
  cols : Nat
  bd : Nat
  v : List ℚ
deriving DecidableEq, Repr

/-- Modelled from the spec: number of scalars in one batch element. -/
def Tensor.batch_size (t : Tensor) : Nat := t.rows * t.cols

/-- Modelled from the spec: offset of `batch_ptr(b)` into the flat buffer;
an operand with batch_count 1 is shared (broadcast), hence the `% bd`. -/
def Tensor.batch_off (t : Tensor) (b : Nat) : Nat := (b % t.bd) * t.batch_size

/-- Modelled from the spec: entry (i, j) of the batch-`b` matrix view
(`batch_matrix(b)`), column-major within the batch element. -/
def Tensor.mat (t : Tensor) (b i j : Nat) : ℚ :=
  t.v.getD (t.batch_off b + j * t.rows + i) 0

/-- Well-formedness of a tensor: batch_count ≥ 1 and the buffer holds
exactly rows·cols·batch_count scalars. -/
def Tensor.wf (t : Tensor) : Prop :=
  1 ≤ t.bd ∧ t.v.length = t.rows * t.cols * t.bd

instance (t : Tensor) : Decidable t.wf := by
  unfold Tensor.wf; infer_instance

/-- Eigen `y.batch_matrix(b).noalias() += E` where entry (i, j) of the
expression `E` for batch b is `g b i j`: rebuild the flat buffer, adding
`g` on the batch-b slice (offset `(b % bd) * (rows*cols)`). -/
def batchAddInto (rows cols bd : Nat) (g : Nat → Nat → Nat → ℚ) (b : Nat)
    (v : List ℚ) : List ℚ :=
  (List.range v.length).map fun p =>
    if (b % bd) * (rows * cols) ≤ p ∧ p < (b % bd) * (rows * cols) + rows * cols then
      v.getD p 0 + g b ((p - (b % bd) * (rows * cols)) % rows)
                       ((p - (b % bd) * (rows * cols)) / rows)
    else
      v.getD p 0

/-- Eigen `y.colbatch_matrix().noalias() += E` (the whole-batch wide view,
rows × wcols with wcols = cols·bd) where entry (i, c) of `E` is `h i c`. -/
def wideAddInto (rows wcols : Nat) (h : Nat → Nat → ℚ) (v : List ℚ) : List ℚ :=
  (List.range v.length).map fun p =>
    if p < rows * wcols then
      v.getD p 0 + h (p % rows) (p / rows)
    else
      v.getD p 0

/-- Model of `cublasSgemm` (column-major GEMM): writes
`alpha · op(A) · op(B) + beta · C` into the `ldc`-strided m×n region of the
output buffer starting at `coff`; entries outside that region are untouched.
`tA`/`tB` select the transposed operand reading. -/
def sgemm (tA tB : Bool) (m n k : Nat) (alpha : ℚ)
    (A : List ℚ) (aoff lda : Nat) (B : List ℚ) (boff ldb : Nat)
    (beta : ℚ) (C : List ℚ) (coff ldc : Nat) : List ℚ :=
  (List.range C.length).map fun p =>
    if coff ≤ p ∧ (p - coff) % ldc < m ∧ (p - coff) / ldc < n then
      alpha * (∑ t in Finset.range k,
          (if tA then A.getD (aoff + ((p - coff) % ldc) * lda + t) 0
                 else A.getD (aoff + t * lda + ((p - coff) % ldc)) 0) *
          (if tB then B.getD (boff + t * ldb + ((p - coff) / ldc)) 0
                 else B.getD (boff + ((p - coff) / ldc) * ldb + t) 0)) +
        beta * C.getD p 0
    else
      C.getD p 0

/-- CPU `MatrixMultiply` (src/dynet/matrix-multiply.h, `#else` branch):
`y.tbvec() = *acc_scalar * y.tbvec()` scales the whole buffer, then either
`y.colbatch_matrix().noalias() += (*l) * r.colbatch_matrix()` when
`l.d.bd == 1 && r.d.bd == y.d.bd`, or a loop over batches doing
`y.batch_matrix(b).noalias() += l.batch_matrix(b) * r.batch_matrix(b)`. -/
def MatrixMultiply_cpu (l r y : Tensor) (acc_scalar : ℚ) : Tensor :=
  let y1 := y.v.map (fun x => acc_scalar * x)
  let v2 :=
    if l.bd = 1 ∧ r.bd = y.bd then
      wideAddInto y.rows (y.cols * y.bd)
        (fun i c => ∑ k in Finset.range l.cols,
          l.v.getD (k * l.rows + i) 0 * r.v.getD (c * r.rows + k) 0) y1
    else
      (List.range y.bd).foldl
        (fun w b => batchAddInto y.rows y.cols y.bd
          (fun b i j => ∑ k in Finset.range l.cols, l.mat b i k * r.mat b k j) b w) y1
  { y with v := v2 }

/-- GPU `MatrixMultiply` (src/dynet/matrix-multiply.h, `__CUDACC__` branch):
one `cublasSgemm(N, N, y.rows, y.cols*y.bd, l.cols, 1, l, l.rows, r, r.rows,
acc_scalar, y, y.rows)` when `l.d.bd == 1 && r.d.bd == y.d.bd`, otherwise one
sgemm per batch at the `batch_ptr` offsets. -/
def MatrixMultiply_gpu (l r y : Tensor) (acc_scalar : ℚ) : Tensor :=
  let v2 :=
    if l.bd = 1 ∧ r.bd = y.bd then
      sgemm false false y.rows (y.cols * y.bd) l.cols 1
        l.v 0 l.rows r.v 0 r.rows acc_scalar y.v 0 y.rows
    else
      (List.range y.bd).foldl
        (fun w b => sgemm false false y.rows y.cols l.cols 1
          l.v (l.batch_off b) l.rows r.v (r.batch_off b) r.rows
          acc_scalar w (y.batch_off b) y.rows) y.v
  { y with v := v2 }

/-- Number of backend multiply calls issued by GPU `MatrixMultiply`:
one wide call, or one call per output batch. -/
def MatrixMultiply_gpu_calls (l r y : Tensor) : Nat :=
  if l.bd = 1 ∧ r.bd = y.bd then 1 else y.bd

/-- CPU `MatrixTranspMultiplyAcc` (computes lᵀ·r, accumulating):
`y.colbatch_matrix().noalias() += (*l).transpose() * r.colbatch_matrix()`
when `l.d.bd == 1 && y.d.bd == r.d.bd`, otherwise a loop over
`max(l.d.bd, r.d.bd)` batches doing
`y.batch_matrix(b).noalias() += l.batch_matrix(b).transpose() * r.batch_matrix(b)`. -/
def MatrixTranspMultiplyAcc_cpu (l r y : Tensor) : Tensor :=
  let v2 :=
    if l.bd = 1 ∧ y.bd = r.bd then
      wideAddInto y.rows (y.cols * y.bd)
        (fun i c => ∑ k in Finset.range l.rows,
          l.v.getD (i * l.rows + k) 0 * r.v.getD (c * r.rows + k) 0) y.v
    else
      (List.range (max l.bd r.bd)).foldl
        (fun w b => batchAddInto y.rows y.cols y.bd
          (fun b i j => ∑ k in Finset.range l.rows, l.mat b k i * r.mat b k j) b w) y.v
  { y with v := v2 }

/-- GPU `MatrixTranspMultiplyAcc`: one `cublasSgemm(T, N, y.rows,
y.cols*y.bd, l.rows, 1, l, l.rows, r, r.rows, 1, y, y.rows)` when
`l.d.bd == 1 && y.d.bd == r.d.bd`, otherwise one sgemm per batch
up to `max(l.d.bd, r.d.bd)` at the `batch_ptr` offsets. -/
def MatrixTranspMultiplyAcc_gpu (l r y : Tensor) : Tensor :=
  let v2 :=
    if l.bd = 1 ∧ y.bd = r.bd then
      sgemm true false y.rows (y.cols * y.bd) l.rows 1
        l.v 0 l.rows r.v 0 r.rows 1 y.v 0 y.rows
    else
      (List.range (max l.bd r.bd)).foldl
        (fun w b => sgemm true false y.rows y.cols l.rows 1
          l.v (l.batch_off b) l.rows r.v (r.batch_off b) r.rows
          1 w (y.batch_off b) y.rows) y.v
  { y with v := v2 }

/-- Number of backend multiply calls issued by GPU `MatrixTranspMultiplyAcc`. -/
def MatrixTranspMultiplyAcc_gpu_calls (l r y : Tensor) : Nat :=
  if l.bd = 1 ∧ y.bd = r.bd then 1 else max l.bd r.bd

/-- CPU `MatrixMultiplyTranspAcc` (computes l·rᵀ, accumulating):
`(*y).noalias() += l.colbatch_matrix() * r.colbatch_matrix().transpose()`
when `y.d.bd == 1 && l.d.bd == r.d.bd`, otherwise a loop over
`max(l.d.bd, r.d.bd)` batches doing
`y.batch_matrix(b).noalias() += l.batch_matrix(b) * r.batch_matrix(b).transpose()`. -/
def MatrixMultiplyTranspAcc_cpu (l r y : Tensor) : Tensor :=
  let v2 :=
    if y.bd = 1 ∧ l.bd = r.bd then
      wideAddInto y.rows y.cols
        (fun i j => ∑ c in Finset.range (l.cols * l.bd),
          l.v.getD (c * l.rows + i) 0 * r.v.getD (c * r.rows + j) 0) y.v
    else
      (List.range (max l.bd r.bd)).foldl
        (fun w b => batchAddInto y.rows y.cols y.bd
          (fun b i j => ∑ k in Finset.range l.cols, l.mat b i k * r.mat b j k) b w) y.v
  { y with v := v2 }

/-- GPU `MatrixMultiplyTranspAcc`: one `cublasSgemm(N, T, y.rows, y.cols,
l.cols*l.bd, 1, l, l.rows, r, r.rows, 1, y, y.rows)` when
`y.d.bd == 1 && l.d.bd == r.d.bd`, otherwise one sgemm per batch
up to `max(l.d.bd, r.d.bd)` at the `batch_ptr` offsets. -/
def MatrixMultiplyTranspAcc_gpu (l r y : Tensor) : Tensor :=
  let v2 :=
    if y.bd = 1 ∧ l.bd = r.bd then
      sgemm false true y.rows y.cols (l.cols * l.bd) 1
        l.v 0 l.rows r.v 0 r.rows 1 y.v 0 y.rows
    else
      (List.range (max l.bd r.bd)).foldl
        (fun w b => sgemm false true y.rows y.cols l.cols 1
          l.v (l.batch_off b) l.rows r.v (r.batch_off b) r.rows
          1 w (y.batch_off b) y.rows) y.v
  { y with v := v2 }

/-- Number of backend multiply calls issued by GPU `MatrixMultiplyTranspAcc`. -/
def MatrixMultiplyTranspAcc_gpu_calls (l r y : Tensor) : Nat :=
  if y.bd = 1 ∧ l.bd = r.bd then 1 else max l.bd r.bd

/-- Proof-side helper: one per-batch gemm call with output pre-scale `β`
(the per-batch `cublasSgemm` with `beta = β`), in slice-update form. -/
def batchScaleAddInto (rows cols bd : Nat) (β : ℚ) (g : Nat → Nat → Nat → ℚ)
    (b : Nat) (v : List ℚ) : List ℚ :=
  (List.range v.length).map fun p =>
    if (b % bd) * (rows * cols) ≤ p ∧ p < (b % bd) * (rows * cols) + rows * cols then
      β * v.getD p 0 + g b ((p - (b % bd) * (rows * cols)) % rows)
                           ((p - (b % bd) * (rows * cols)) / rows)
    else
      v.getD p 0

section Lemmas

lemma getD_range_map (f : Nat → ℚ) (n p : Nat) :
    ((List.range n).map f).getD p 0 = if p < n then f p else 0 := by
  by_cases h : p < n
  · simp [List.getD, List.getElem?_map, List.getElem?_range h, h]
  · have hlen : ((List.range n).map f).length ≤ p := by
      simpa using Nat.le_of_not_lt h
    simp [List.getD, List.getElem?_eq_none hlen, h]

lemma getD_map_scale (v : List ℚ) (a : ℚ) (p : Nat) (h : p < v.length) :
    (v.map (fun x => a * x)).getD p 0 = a * v.getD p 0 := by
  simp [List.getD_eq_getElem, h]

lemma list_ext_getD (v w : List ℚ) (hl : v.length = w.length)
    (h : ∀ p, p < v.length → v.getD p 0 = w.getD p 0) : v = w := by
  apply List.ext_getElem hl
  intro i h1 h2
  have := h i h1
  simpa [List.getD_eq_getElem, h1, h2] using this

@[simp] lemma batchAddInto_length (rows cols bd : Nat) (g : Nat → Nat → Nat → ℚ)
    (b : Nat) (v : List ℚ) : (batchAddInto rows cols bd g b v).length = v.length := by
  simp [batchAddInto]

@[simp] lemma wideAddInto_length (rows wcols : Nat) (h : Nat → Nat → ℚ)
    (v : List ℚ) : (wideAddInto rows wcols h v).length = v.length := by
  simp [wideAddInto]

@[simp] lemma sgemm_length (tA tB : Bool) (m n k : Nat) (alpha : ℚ)
    (A : List ℚ) (aoff lda : Nat) (B : List ℚ) (boff ldb : Nat)
    (beta : ℚ) (C : List ℚ) (coff ldc : Nat) :
    (sgemm tA tB m n k alpha A aoff lda B boff ldb beta C coff ldc).length = C.length := by
  simp [sgemm]

@[simp] lemma batchScaleAddInto_length (rows cols bd : Nat) (β : ℚ)
    (g : Nat → Nat → Nat → ℚ) (b : Nat) (v : List ℚ) :
    (batchScaleAddInto rows cols bd β g b v).length = v.length := by
  simp [batchScaleAddInto]

lemma foldl_preserve_length (step : List ℚ → Nat → List ℚ)
    (hstep : ∀ w b, (step w b).length = w.length) (bs : List Nat) (v : List ℚ) :
    (bs.foldl step v).length = v.length := by
  induction bs generalizing v with
  | nil => rfl
  | cons b bs ih => rw [List.foldl_cons, ih, hstep]

lemma batchAddInto_getD (rows cols bd : Nat) (g : Nat → Nat → Nat → ℚ)
    (b : Nat) (v : List ℚ) (p : Nat) (hp : p < v.length) :
    (batchAddInto rows cols bd g b v).getD p 0 =
      if (b % bd) * (rows * cols) ≤ p ∧ p < (b % bd) * (rows * cols) + rows * cols then
        v.getD p 0 + g b ((p - (b % bd) * (rows * cols)) % rows)
                         ((p - (b % bd) * (rows * cols)) / rows)
      else v.getD p 0 := by
  rw [batchAddInto, getD_range_map, if_pos hp]

lemma batchScaleAddInto_getD (rows cols bd : Nat) (β : ℚ) (g : Nat → Nat → Nat → ℚ)
    (b : Nat) (v : List ℚ) (p : Nat) (hp : p < v.length) :
    (batchScaleAddInto rows cols bd β g b v).getD p 0 =
      if (b % bd) * (rows * cols) ≤ p ∧ p < (b % bd) * (rows * cols) + rows * cols then
        β * v.getD p 0 + g b ((p - (b % bd) * (rows * cols)) % rows)
                             ((p - (b % bd) * (rows * cols)) / rows)
      else v.getD p 0 := by
  rw [batchScaleAddInto, getD_range_map, if_pos hp]

lemma wideAddInto_getD (rows wcols : Nat) (h : Nat → Nat → ℚ)
    (v : List ℚ) (p : Nat) (hp : p < v.length) :
    (wideAddInto rows wcols h v).getD p 0 =
      if p < rows * wcols then v.getD p 0 + h (p % rows) (p / rows)
      else v.getD p 0 := by
  rw [wideAddInto, getD_range_map, if_pos hp]

lemma sgemm_getD (tA tB : Bool) (m n k : Nat) (alpha : ℚ)
    (A : List ℚ) (aoff lda : Nat) (B : List ℚ) (boff ldb : Nat)
    (beta : ℚ) (C : List ℚ) (coff ldc : Nat) (p : Nat) (hp : p < C.length) :
    (sgemm tA tB m n k alpha A aoff lda B boff ldb beta C coff ldc).getD p 0 =
      if coff ≤ p ∧ (p - coff) % ldc < m ∧ (p - coff) / ldc < n then
        alpha * (∑ t in Finset.range k,
            (if tA then A.getD (aoff + ((p - coff) % ldc) * lda + t) 0
                   else A.getD (aoff + t * lda + ((p - coff) % ldc)) 0) *
            (if tB then B.getD (boff + t * ldb + ((p - coff) / ldc)) 0
                   else B.getD (boff + ((p - coff) / ldc) * ldb + t) 0)) +
          beta * C.getD p 0
      else C.getD p 0 := by
  rw [sgemm, getD_range_map, if_pos hp]

lemma mul_add_mod_lt (c rows i : Nat) (hi : i < rows) : (c * rows + i) % rows = i := by
  rw [mul_comm c rows, Nat.mul_add_mod, Nat.mod_eq_of_lt hi]

lemma mul_add_div_lt (c rows i : Nat) (hi : i < rows) : (c * rows + i) / rows = c := by
  have h0 : 0 < rows := Nat.lt_of_le_of_lt (Nat.zero_le i) hi
  rw [mul_comm c rows, Nat.mul_add_div h0, Nat.div_eq_of_lt hi, Nat.add_zero]

lemma interval_iff_div (bs b p : Nat) (hbs : 0 < bs) :
    (b * bs ≤ p ∧ p < b * bs + bs) ↔ p / bs = b := by
  constructor
  · rintro ⟨h1, h2⟩
    exact Nat.div_eq_of_lt_le h1 (by rw [Nat.succ_mul]; exact h2)
  · intro h
    subst h
    refine ⟨Nat.div_mul_le_self p bs, ?_⟩
    conv_lhs => rw [(Nat.div_add_mod' p bs).symm]
    have := Nat.mod_lt p hbs
    omega

lemma sum_ite_interval (n bs p : Nat) (f : Nat → ℚ) (hbs : 0 < bs) :
    (∑ b in Finset.range n, if b * bs ≤ p ∧ p < b * bs + bs then f b else 0) =
      if p / bs < n then f (p / bs) else 0 := by
  induction n with
  | zero => simp
  | succ n ih =>
    rw [Finset.sum_range_succ, ih]
    by_cases hc : p / bs = n
    · rw [if_pos ((interval_iff_div bs n p hbs).mpr hc)]
      rw [if_neg (by omega), if_pos (by omega), hc]
      ring
    · rw [if_neg (fun h => hc ((interval_iff_div bs n p hbs).mp h))]
      by_cases hlt : p / bs < n
      · rw [if_pos hlt, if_pos (by omega)]; ring
      · rw [if_neg hlt, if_neg (by omega)]; ring

lemma foldl_batchAddInto_getD (rows cols bd : Nat) (g : Nat → Nat → Nat → ℚ)
    (n : Nat) (v : List ℚ) (p : Nat) (hp : p < v.length) :
    ((List.range n).foldl (fun w b => batchAddInto rows cols bd g b w) v).getD p 0 =
      v.getD p 0 + ∑ b in Finset.range n,
        (if (b % bd) * (rows * cols) ≤ p ∧ p < (b % bd) * (rows * cols) + rows * cols
         then g b ((p - (b % bd) * (rows * cols)) % rows)
                  ((p - (b % bd) * (rows * cols)) / rows)
         else 0) := by
  induction n with
  | zero => simp
  | succ n ih =>
    rw [List.range_succ, List.foldl_append, List.foldl_cons, List.foldl_nil]
    have hlen : p <
        ((List.range n).foldl (fun w b => batchAddInto rows cols bd g b w) v).length := by
      rw [foldl_preserve_length _ (fun w b => batchAddInto_length rows cols bd g b w)]
      exact hp
    rw [batchAddInto_getD rows cols bd g n _ p hlen, Finset.sum_range_succ, ih]
    by_cases hc : (n % bd) * (rows * cols) ≤ p ∧ p < (n % bd) * (rows * cols) + rows * cols
    · rw [if_pos hc, if_pos hc]; ring
    · rw [if_neg hc, if_neg hc]; ring

lemma foldl_batchScaleAddInto_getD (rows cols bd : Nat) (β : ℚ)
    (g : Nat → Nat → Nat → ℚ) (n : Nat) (hn : n ≤ bd) (v : List ℚ) (p : Nat)
    (hp : p < v.length) (hbs : 0 < rows * cols) :
    ((List.range n).foldl (fun w b => batchScaleAddInto rows cols bd β g b w) v).getD p 0 =
      if p / (rows * cols) < n then
        β * v.getD p 0 + g (p / (rows * cols)) ((p % (rows * cols)) % rows)
                           ((p % (rows * cols)) / rows)
      else v.getD p 0 := by
  induction n with
  | zero => simp
  | succ n ih =>
    have hn' : n ≤ bd := Nat.le_of_succ_le hn
    rw [List.range_succ, List.foldl_append, List.foldl_cons, List.foldl_nil]
    have hlen : p <
        ((List.range n).foldl (fun w b => batchScaleAddInto rows cols bd β g b w) v).length := by
      rw [foldl_preserve_length _ (fun w b => batchScaleAddInto_length rows cols bd β g b w)]
      exact hp
    rw [batchScaleAddInto_getD rows cols bd β g n _ p hlen,
      Nat.mod_eq_of_lt (Nat.lt_of_succ_le hn)]
    by_cases hc : n * (rows * cols) ≤ p ∧ p < n * (rows * cols) + rows * cols
    · have hdiv : p / (rows * cols) = n := (interval_iff_div _ _ _ hbs).mp hc
      have hsub : p - n * (rows * cols) = p % (rows * cols) := by
        have h1 : p % (rows * cols) = (n * (rows * cols) + (p - n * (rows * cols))) % (rows * cols) := by
          rw [Nat.add_sub_cancel' hc.1]
        rw [h1, mul_add_mod_lt n (rows * cols) _ (by omega)]
      rw [if_pos hc, ih hn', if_neg (by omega), if_pos (by omega), hdiv, hsub]
    · rw [if_neg hc, ih hn']
      have hne : p / (rows * cols) ≠ n := fun h =>
        hc ((interval_iff_div _ _ _ hbs).mpr h)
      by_cases hlt : p / (rows * cols) < n
      · rw [if_pos hlt, if_pos (by omega)]
      · rw [if_neg hlt, if_neg (by omega)]

lemma region_iff (rows cols off p : Nat) :
    (off ≤ p ∧ (p - off) % rows < rows ∧ (p - off) / rows < cols) ↔
      (off ≤ p ∧ p < off + rows * cols) := by
  constructor
  · rintro ⟨h1, hm, hd⟩
    have hr : 0 < rows := Nat.lt_of_le_of_lt (Nat.zero_le _) hm
    have := (Nat.div_lt_iff_lt_mul hr).mp hd
    rw [mul_comm] at this
    exact ⟨h1, by omega⟩
  · rintro ⟨h1, h2⟩
    have hr : 0 < rows := by
      by_contra h
      have : rows = 0 := by omega
      rw [this] at h2
      omega
    refine ⟨h1, Nat.mod_lt _ hr, (Nat.div_lt_iff_lt_mul hr).mpr ?_⟩
    rw [mul_comm]
    omega

lemma sgemm_step_TM (l r y : Tensor) (b : Nat) (w : List ℚ) :
    sgemm true false y.rows y.cols l.rows 1 l.v (l.batch_off b) l.rows
        r.v (r.batch_off b) r.rows 1 w (y.batch_off b) y.rows =
      batchAddInto y.rows y.cols y.bd
        (fun b i j => ∑ k in Finset.range l.rows, l.mat b k i * r.mat b k j) b w := by
  unfold sgemm batchAddInto
  apply List.map_congr_left
  intro p hp
  simp only [Tensor.mat, Tensor.batch_off, Tensor.batch_size, if_true, Bool.false_eq_true,
    if_false, region_iff, and_assoc]
  split
  · ring
  · rfl

lemma sgemm_step_MT (l r y : Tensor) (b : Nat) (w : List ℚ) :
    sgemm false true y.rows y.cols l.cols 1 l.v (l.batch_off b) l.rows
        r.v (r.batch_off b) r.rows 1 w (y.batch_off b) y.rows =
      batchAddInto y.rows y.cols y.bd
        (fun b i j => ∑ k in Finset.range l.cols, l.mat b i k * r.mat b j k) b w := by
  unfold sgemm batchAddInto
  apply List.map_congr_left
  intro p hp
  simp only [Tensor.mat, Tensor.batch_off, Tensor.batch_size, if_true, Bool.false_eq_true,
    if_false, region_iff, and_assoc]
  split
  · ring
  · rfl

lemma sgemm_step_MM (l r y : Tensor) (β : ℚ) (b : Nat) (w : List ℚ) :
    sgemm false false y.rows y.cols l.cols 1 l.v (l.batch_off b) l.rows
        r.v (r.batch_off b) r.rows β w (y.batch_off b) y.rows =
      batchScaleAddInto y.rows y.cols y.bd β
        (fun b i j => ∑ k in Finset.range l.cols, l.mat b i k * r.mat b k j) b w := by
  unfold sgemm batchScaleAddInto
  apply List.map_congr_left
  intro p hp
  simp only [Tensor.mat, Tensor.batch_off, Tensor.batch_size, if_true, Bool.false_eq_true,
    if_false, region_iff, and_assoc]
  split
  · ring
  · rfl

lemma Tensor.mat_def (t : Tensor) (b i j : Nat) :
    t.mat b i j = t.v.getD ((b % t.bd) * (t.rows * t.cols) + j * t.rows + i) 0 := rfl

lemma mat_mk (rows cols bd : Nat) (V : List ℚ) (b i j : Nat) :
    (Tensor.mk rows cols bd V).mat b i j =
      V.getD ((b % bd) * (rows * cols) + j * rows + i) 0 := rfl

lemma MatrixMultiply_cpu_def (l r y : Tensor) (α : ℚ) :
    MatrixMultiply_cpu l r y α =
      Tensor.mk y.rows y.cols y.bd
        (if l.bd = 1 ∧ r.bd = y.bd then
          wideAddInto y.rows (y.cols * y.bd)
            (fun i c => ∑ k in Finset.range l.cols,
              l.v.getD (k * l.rows + i) 0 * r.v.getD (c * r.rows + k) 0)
            (y.v.map (fun x => α * x))
        else
          (List.range y.bd).foldl
            (fun w b => batchAddInto y.rows y.cols y.bd
              (fun b i j => ∑ k in Finset.range l.cols, l.mat b i k * r.mat b k j) b w)
            (y.v.map (fun x => α * x))) := rfl

lemma MatrixMultiply_gpu_def (l r y : Tensor) (α : ℚ) :
    MatrixMultiply_gpu l r y α =
      Tensor.mk y.rows y.cols y.bd
        (if l.bd = 1 ∧ r.bd = y.bd then
          sgemm false false y.rows (y.cols * y.bd) l.cols 1
            l.v 0 l.rows r.v 0 r.rows α y.v 0 y.rows
        else
          (List.range y.bd).foldl
            (fun w b => sgemm false false y.rows y.cols l.cols 1
              l.v (l.batch_off b) l.rows r.v (r.batch_off b) r.rows
              α w (y.batch_off b) y.rows) y.v) := rfl

lemma MatrixTranspMultiplyAcc_cpu_def (l r y : Tensor) :
    MatrixTranspMultiplyAcc_cpu l r y =
      Tensor.mk y.rows y.cols y.bd
        (if l.bd = 1 ∧ y.bd = r.bd then
          wideAddInto y.rows (y.cols * y.bd)
            (fun i c => ∑ k in Finset.range l.rows,
              l.v.getD (i * l.rows + k) 0 * r.v.getD (c * r.rows + k) 0) y.v
        else
          (List.range (max l.bd r.bd)).foldl
            (fun w b => batchAddInto y.rows y.cols y.bd
              (fun b i j => ∑ k in Finset.range l.rows, l.mat b k i * r.mat b k j) b w)
            y.v) := rfl

lemma MatrixTranspMultiplyAcc_gpu_def (l r y : Tensor) :
    MatrixTranspMultiplyAcc_gpu l r y =
      Tensor.mk y.rows y.cols y.bd
        (if l.bd = 1 ∧ y.bd = r.bd then
          sgemm true false y.rows (y.cols * y.bd) l.rows 1
            l.v 0 l.rows r.v 0 r.rows 1 y.v 0 y.rows
        else
          (List.range (max l.bd r.bd)).foldl
            (fun w b => sgemm true false y.rows y.cols l.rows 1
              l.v (l.batch_off b) l.rows r.v (r.batch_off b) r.rows
              1 w (y.batch_off b) y.rows) y.v) := rfl

lemma MatrixMultiplyTranspAcc_cpu_def (l r y : Tensor) :
    MatrixMultiplyTranspAcc_cpu l r y =
      Tensor.mk y.rows y.cols y.bd
        (if y.bd = 1 ∧ l.bd = r.bd then
          wideAddInto y.rows y.cols
            (fun i j => ∑ c in Finset.range (l.cols * l.bd),
              l.v.getD (c * l.rows + i) 0 * r.v.getD (c * r.rows + j) 0) y.v
        else
          (List.range (max l.bd r.bd)).foldl
            (fun w b => batchAddInto y.rows y.cols y.bd
              (fun b i j => ∑ k in Finset.range l.cols, l.mat b i k * r.mat b j k) b w)
            y.v) := rfl

lemma MatrixMultiplyTranspAcc_gpu_def (l r y : Tensor) :
    MatrixMultiplyTranspAcc_gpu l r y =
      Tensor.mk y.rows y.cols y.bd
        (if y.bd = 1 ∧ l.bd = r.bd then
          sgemm false true y.rows y.cols (l.cols * l.bd) 1
            l.v 0 l.rows r.v 0 r.rows 1 y.v 0 y.rows
        else
          (List.range (max l.bd r.bd)).foldl
            (fun w b => sgemm false true y.rows y.cols l.cols 1
              l.v (l.batch_off b) l.rows r.v (r.batch_off b) r.rows
              1 w (y.batch_off b) y.rows) y.v) := rfl

lemma sub_idx_lt (rows cols i j : Nat) (hi : i < rows) (hj : j < cols) :
    j * rows + i < rows * cols := by
  calc j * rows + i < (j + 1) * rows := by rw [Nat.succ_mul]; omega
    _ ≤ cols * rows := mul_le_mul_right' (Nat.succ_le_of_lt hj) _
    _ = rows * cols := mul_comm _ _

lemma flat_idx_lt (rows cols bd b i j : Nat) (hb : b < bd) (hi : i < rows) (hj : j < cols) :
    b * (rows * cols) + j * rows + i < rows * cols * bd := by
  have h1 := sub_idx_lt rows cols i j hi hj
  calc b * (rows * cols) + j * rows + i < (b + 1) * (rows * cols) := by
        rw [Nat.succ_mul]; omega
    _ ≤ bd * (rows * cols) := mul_le_mul_right' (Nat.succ_le_of_lt hb) _
    _ = rows * cols * bd := mul_comm _ _

lemma MatrixMultiply_cpu_mat (l r y : Tensor) (α : ℚ)
    (hw : y.v.length = y.rows * y.cols * y.bd)
    (hrb : r.bd = y.bd) (hcols : y.cols = r.cols)
    (b i j : Nat) (hb : b < y.bd) (hi : i < y.rows) (hj : j < y.cols) :
    (MatrixMultiply_cpu l r y α).mat b i j =
      α * y.mat b i j + ∑ k in Finset.range l.cols, l.mat b i k * r.mat b k j := by
  have hbmod : b % y.bd = b := Nat.mod_eq_of_lt hb
  have hplt0 : b * (y.rows * y.cols) + j * y.rows + i < y.rows * y.cols * y.bd :=
    flat_idx_lt _ _ _ _ _ _ hb hi hj
  have hplt : b * (y.rows * y.cols) + j * y.rows + i < y.v.length := by
    rw [hw]; exact hplt0
  have hmat : y.mat b i j = y.v.getD (b * (y.rows * y.cols) + j * y.rows + i) 0 := by
    rw [Tensor.mat_def, hbmod]
  rw [MatrixMultiply_cpu_def, mat_mk, hbmod]
  by_cases hcond : l.bd = 1 ∧ r.bd = y.bd
  · rw [if_pos hcond]
    have hlen2 : b * (y.rows * y.cols) + j * y.rows + i <
        (y.v.map (fun x => α * x)).length := by
      rw [List.length_map]; exact hplt
    rw [wideAddInto_getD _ _ _ _ _ hlen2]
    have hwide : b * (y.rows * y.cols) + j * y.rows + i = (b * y.cols + j) * y.rows + i := by
      ring
    rw [if_pos (Nat.lt_of_lt_of_eq hplt0 (mul_assoc _ _ _))]
    have hm : (b * (y.rows * y.cols) + j * y.rows + i) % y.rows = i := by
      rw [hwide]; exact mul_add_mod_lt _ _ _ hi
    have hd : (b * (y.rows * y.cols) + j * y.rows + i) / y.rows = b * y.cols + j := by
      rw [hwide]; exact mul_add_div_lt _ _ _ hi
    rw [hm, hd, getD_map_scale _ _ _ hplt, hmat]
    congr 1
    apply Finset.sum_congr rfl
    intro k hk
    have hL : l.mat b i k = l.v.getD (k * l.rows + i) 0 := by
      rw [Tensor.mat_def, hcond.1, Nat.mod_one, Nat.zero_mul, Nat.zero_add]
    have hR : r.mat b k j = r.v.getD ((b * y.cols + j) * r.rows + k) 0 := by
      rw [Tensor.mat_def, hrb, hbmod, hcols]
      congr 1
      ring
    rw [hL, hR]
  · rw [if_neg hcond]
    have hlen2 : b * (y.rows * y.cols) + j * y.rows + i <
        (y.v.map (fun x => α * x)).length := by
      rw [List.length_map]; exact hplt
    rw [foldl_batchAddInto_getD _ _ _ _ _ _ _ hlen2, getD_map_scale _ _ _ hplt, hmat]
    congr 1
    have hbs : 0 < y.rows * y.cols :=
      Nat.mul_pos (Nat.lt_of_le_of_lt (Nat.zero_le _) hi) (Nat.lt_of_le_of_lt (Nat.zero_le _) hj)
    rw [Finset.sum_congr rfl (fun x hx => by
      rw [Nat.mod_eq_of_lt (Finset.mem_range.mp hx)])]
    rw [sum_ite_interval y.bd (y.rows * y.cols) _ _ hbs]
    have hdb : (b * (y.rows * y.cols) + j * y.rows + i) / (y.rows * y.cols) = b := by
      rw [show b * (y.rows * y.cols) + j * y.rows + i
            = b * (y.rows * y.cols) + (j * y.rows + i) by ring]
      exact mul_add_div_lt _ _ _ (sub_idx_lt _ _ _ _ hi hj)
    rw [hdb, if_pos hb]
    have hsub : b * (y.rows * y.cols) + j * y.rows + i - b * (y.rows * y.cols)
        = j * y.rows + i := by omega
    rw [hsub, mul_add_mod_lt _ _ _ hi, mul_add_div_lt _ _ _ hi]

lemma MatrixMultiply_gpu_mat (l r y : Tensor) (α : ℚ)
    (hw : y.v.length = y.rows * y.cols * y.bd)
    (hrb : r.bd = y.bd) (hcols : y.cols = r.cols)
    (b i j : Nat) (hb : b < y.bd) (hi : i < y.rows) (hj : j < y.cols) :
    (MatrixMultiply_gpu l r y α).mat b i j =
      α * y.mat b i j + ∑ k in Finset.range l.cols, l.mat b i k * r.mat b k j := by
  have hbmod : b % y.bd = b := Nat.mod_eq_of_lt hb
  have hplt0 : b * (y.rows * y.cols) + j * y.rows + i < y.rows * y.cols * y.bd :=
    flat_idx_lt _ _ _ _ _ _ hb hi hj
  have hplt : b * (y.rows * y.cols) + j * y.rows + i < y.v.length := by
    rw [hw]; exact hplt0
  have hmat : y.mat b i j = y.v.getD (b * (y.rows * y.cols) + j * y.rows + i) 0 := by
    rw [Tensor.mat_def, hbmod]
  have hwide : b * (y.rows * y.cols) + j * y.rows + i = (b * y.cols + j) * y.rows + i := by
    ring
  have hm : (b * (y.rows * y.cols) + j * y.rows + i) % y.rows = i := by
    rw [hwide]; exact mul_add_mod_lt _ _ _ hi
  have hd : (b * (y.rows * y.cols) + j * y.rows + i) / y.rows = b * y.cols + j := by
    rw [hwide]; exact mul_add_div_lt _ _ _ hi
  have hbs : 0 < y.rows * y.cols :=
    Nat.mul_pos (Nat.lt_of_le_of_lt (Nat.zero_le _) hi) (Nat.lt_of_le_of_lt (Nat.zero_le _) hj)
  rw [MatrixMultiply_gpu_def, mat_mk, hbmod]
  by_cases hcond : l.bd = 1 ∧ r.bd = y.bd
  · rw [if_pos hcond, sgemm_getD _ _ _ _ _ _ _ _ _ _ _ _ _ _ _ _ _ hplt]
    simp only [Nat.sub_zero, Nat.zero_add, Bool.false_eq_true, if_false]
    have hcb : b * y.cols + j < y.cols * y.bd := by
      calc b * y.cols + j < (b + 1) * y.cols := by rw [Nat.succ_mul]; omega
        _ ≤ y.bd * y.cols := mul_le_mul_right' (Nat.succ_le_of_lt hb) _
        _ = y.cols * y.bd := mul_comm _ _
    rw [if_pos ⟨Nat.zero_le _, by rw [hm]; exact hi, by rw [hd]; exact hcb⟩, hm, hd, hmat]
    have hS : (∑ t in Finset.range l.cols,
        l.v.getD (t * l.rows + i) 0 * r.v.getD ((b * y.cols + j) * r.rows + t) 0) =
        ∑ k in Finset.range l.cols, l.mat b i k * r.mat b k j := by
      apply Finset.sum_congr rfl
      intro k hk
      have hL : l.mat b i k = l.v.getD (k * l.rows + i) 0 := by
        rw [Tensor.mat_def, hcond.1, Nat.mod_one, Nat.zero_mul, Nat.zero_add]
      have hR : r.mat b k j = r.v.getD ((b * y.cols + j) * r.rows + k) 0 := by
        rw [Tensor.mat_def, hrb, hbmod, hcols]
        congr 1
        ring
      rw [hL, hR]
    rw [hS]
    ring
  · rw [if_neg hcond]
    simp only [sgemm_step_MM]
    rw [foldl_batchScaleAddInto_getD _ _ _ _ _ _ (le_refl y.bd) _ _ hplt hbs]
    have hdb : (b * (y.rows * y.cols) + j * y.rows + i) / (y.rows * y.cols) = b := by
      rw [show b * (y.rows * y.cols) + j * y.rows + i
            = b * (y.rows * y.cols) + (j * y.rows + i) by ring]
      exact mul_add_div_lt _ _ _ (sub_idx_lt _ _ _ _ hi hj)
    have hpm : (b * (y.rows * y.cols) + j * y.rows + i) % (y.rows * y.cols)
        = j * y.rows + i := by
      rw [show b * (y.rows * y.cols) + j * y.rows + i
            = b * (y.rows * y.cols) + (j * y.rows + i) by ring]
      exact mul_add_mod_lt _ _ _ (sub_idx_lt _ _ _ _ hi hj)
    rw [hdb, if_pos hb, hpm, mul_add_mod_lt _ _ _ hi, mul_add_div_lt _ _ _ hi, hmat]

lemma TM_cpu_mat (l r y : Tensor)
    (hw : y.v.length = y.rows * y.cols * y.bd)
    (hmax : y.bd = max l.bd r.bd) (hcols : y.cols = r.cols)
    (b i j : Nat) (hb : b < y.bd) (hi : i < y.rows) (hj : j < y.cols) :
    (MatrixTranspMultiplyAcc_cpu l r y).mat b i j =
      y.mat b i j + ∑ k in Finset.range l.rows, l.mat b k i * r.mat b k j := by
  have hbmod : b % y.bd = b := Nat.mod_eq_of_lt hb
  have hplt0 : b * (y.rows * y.cols) + j * y.rows + i < y.rows * y.cols * y.bd :=
    flat_idx_lt _ _ _ _ _ _ hb hi hj
  have hplt : b * (y.rows * y.cols) + j * y.rows + i < y.v.length := by
    rw [hw]; exact hplt0
  have hmat : y.mat b i j = y.v.getD (b * (y.rows * y.cols) + j * y.rows + i) 0 := by
    rw [Tensor.mat_def, hbmod]
  rw [MatrixTranspMultiplyAcc_cpu_def, mat_mk, hbmod]
  by_cases hcond : l.bd = 1 ∧ y.bd = r.bd
  · rw [if_pos hcond, wideAddInto_getD _ _ _ _ _ hplt,
      if_pos (Nat.lt_of_lt_of_eq hplt0 (mul_assoc _ _ _))]
    have hwide : b * (y.rows * y.cols) + j * y.rows + i = (b * y.cols + j) * y.rows + i := by
      ring
    have hm : (b * (y.rows * y.cols) + j * y.rows + i) % y.rows = i := by
      rw [hwide]; exact mul_add_mod_lt _ _ _ hi
    have hd : (b * (y.rows * y.cols) + j * y.rows + i) / y.rows = b * y.cols + j := by
      rw [hwide]; exact mul_add_div_lt _ _ _ hi
    rw [hm, hd, hmat]
    congr 1
    apply Finset.sum_congr rfl
    intro k hk
    have hL : l.mat b k i = l.v.getD (i * l.rows + k) 0 := by
      rw [Tensor.mat_def, hcond.1, Nat.mod_one, Nat.zero_mul, Nat.zero_add]
    have hR : r.mat b k j = r.v.getD ((b * y.cols + j) * r.rows + k) 0 := by
      rw [Tensor.mat_def, ← hcond.2, hbmod, hcols]
      congr 1
      ring
    rw [hL, hR]
  · rw [if_neg hcond, ← hmax,
      foldl_batchAddInto_getD _ _ _ _ _ _ _ hplt, hmat]
    congr 1
    have hbs : 0 < y.rows * y.cols :=
      Nat.mul_pos (Nat.lt_of_le_of_lt (Nat.zero_le _) hi) (Nat.lt_of_le_of_lt (Nat.zero_le _) hj)
    rw [Finset.sum_congr rfl (fun x hx => by
      rw [Nat.mod_eq_of_lt (Finset.mem_range.mp hx)])]
    rw [sum_ite_interval y.bd (y.rows * y.cols) _ _ hbs]
    have hdb : (b * (y.rows * y.cols) + j * y.rows + i) / (y.rows * y.cols) = b := by
      rw [show b * (y.rows * y.cols) + j * y.rows + i
            = b * (y.rows * y.cols) + (j * y.rows + i) by ring]
      exact mul_add_div_lt _ _ _ (sub_idx_lt _ _ _ _ hi hj)
    rw [hdb, if_pos hb]
    have hsub : b * (y.rows * y.cols) + j * y.rows + i - b * (y.rows * y.cols)
        = j * y.rows + i := by omega
    rw [hsub, mul_add_mod_lt _ _ _ hi, mul_add_div_lt _ _ _ hi]

lemma TM_cpu_eq_gpu (l r y : Tensor) :
    MatrixTranspMultiplyAcc_cpu l r y = MatrixTranspMultiplyAcc_gpu l r y := by
  rw [MatrixTranspMultiplyAcc_cpu_def, MatrixTranspMultiplyAcc_gpu_def]
  by_cases hcond : l.bd = 1 ∧ y.bd = r.bd
  · rw [if_pos hcond, if_pos hcond]
    congr 1
    unfold wideAddInto sgemm
    apply List.map_congr_left
    intro p hp
    simp only [Nat.sub_zero, Nat.zero_add, Nat.zero_le, true_and, if_true,
      Bool.false_eq_true, if_false]
    have hiff : (p % y.rows < y.rows ∧ p / y.rows < y.cols * y.bd) ↔
        p < y.rows * (y.cols * y.bd) := by
      have h := region_iff y.rows (y.cols * y.bd) 0 p
      simpa using h
    simp only [hiff]
    split
    · ring
    · rfl
  · rw [if_neg hcond, if_neg hcond]
    congr 1
    simp only [sgemm_step_TM]

lemma MT_cpu_eq_gpu (l r y : Tensor) :
    MatrixMultiplyTranspAcc_cpu l r y = MatrixMultiplyTranspAcc_gpu l r y := by
  rw [MatrixMultiplyTranspAcc_cpu_def, MatrixMultiplyTranspAcc_gpu_def]
  by_cases hcond : y.bd = 1 ∧ l.bd = r.bd
  · rw [if_pos hcond, if_pos hcond]
    congr 1
    unfold wideAddInto sgemm
    apply List.map_congr_left
    intro p hp
    simp only [Nat.sub_zero, Nat.zero_add, Nat.zero_le, true_and, if_true,
      Bool.false_eq_true, if_false]
    have hiff : (p % y.rows < y.rows ∧ p / y.rows < y.cols) ↔
        p < y.rows * y.cols := by
      have h := region_iff y.rows y.cols 0 p
      simpa using h
    simp only [hiff]
    split
    · ring
    · rfl
  · rw [if_neg hcond, if_neg hcond]
    congr 1
    simp only [sgemm_step_MT]

lemma MM_cpu_eq_gpu (l r y : Tensor) (α : ℚ)
    (hw : y.v.length = y.rows * y.cols * y.bd) :
    MatrixMultiply_cpu l r y α = MatrixMultiply_gpu l r y α := by
  rw [MatrixMultiply_cpu_def, MatrixMultiply_gpu_def]
  by_cases hcond : l.bd = 1 ∧ r.bd = y.bd
  · rw [if_pos hcond, if_pos hcond]
    congr 1
    apply list_ext_getD
    · simp
    · intro p hp
      have hp' : p < y.v.length := by simpa using hp
      have hreg : p < y.rows * (y.cols * y.bd) := by
        rw [← mul_assoc, ← hw]; exact hp'
      have hr0 : 0 < y.rows := by
        by_contra h
        have h0 : y.rows = 0 := by omega
        rw [h0, Nat.zero_mul] at hreg
        omega
      rw [wideAddInto_getD _ _ _ _ _ (by simpa using hp'), if_pos hreg,
        getD_map_scale _ _ _ hp',
        sgemm_getD _ _ _ _ _ _ _ _ _ _ _ _ _ _ _ _ _ hp']
      simp only [Nat.sub_zero, Nat.zero_add, Bool.false_eq_true, if_false]
      rw [if_pos ⟨Nat.zero_le _, Nat.mod_lt _ hr0,
        (Nat.div_lt_iff_lt_mul hr0).mpr (by rw [mul_comm]; exact hreg)⟩]
      ring
  · rw [if_neg hcond, if_neg hcond]
    congr 1
    simp only [sgemm_step_MM]
    apply list_ext_getD
    · rw [foldl_preserve_length _
        (fun w b => batchAddInto_length y.rows y.cols y.bd _ b w), List.length_map,
        foldl_preserve_length _
        (fun w b => batchScaleAddInto_length y.rows y.cols y.bd α _ b w)]
    · intro p hp
      have hp' : p < y.v.length := by
        rw [foldl_preserve_length _
          (fun w b => batchAddInto_length y.rows y.cols y.bd _ b w),
          List.length_map] at hp
        exact hp
      have hbs : 0 < y.rows * y.cols := by
        by_contra h
        have h0 : y.rows * y.cols = 0 := by omega
        rw [hw, h0, Nat.zero_mul] at hp'
        omega
      have hdlt : p / (y.rows * y.cols) < y.bd := by
        apply (Nat.div_lt_iff_lt_mul hbs).mpr
        rw [mul_comm, ← hw]
        exact hp'
      rw [foldl_batchAddInto_getD _ _ _ _ _ _ _ (by simpa using hp'),
        getD_map_scale _ _ _ hp',
        foldl_batchScaleAddInto_getD _ _ _ _ _ _ (le_refl y.bd) _ _ hp' hbs,
        if_pos hdlt]
      rw [Finset.sum_congr rfl (fun x hx => by
        rw [Nat.mod_eq_of_lt (Finset.mem_range.mp hx)])]
      rw [sum_ite_interval y.bd (y.rows * y.cols) _ _ hbs, if_pos hdlt]
      have hmodsub : p - p / (y.rows * y.cols) * (y.rows * y.cols)
          = p % (y.rows * y.cols) := by
        have := Nat.div_add_mod' p (y.rows * y.cols)
        omega
      rw [hmodsub]

lemma sum_range_add_split (m n : Nat) (f : Nat → ℚ) :
    (∑ c in Finset.range (m + n), f c) =
      (∑ c in Finset.range m, f c) + ∑ t in Finset.range n, f (m + t) := by
  induction n with
  | zero => simp
  | succ n ih =>
    rw [← Nat.add_assoc, Finset.sum_range_succ, ih, Finset.sum_range_succ]
    ring

lemma sum_range_mul_split (n m : Nat) (f : Nat → ℚ) :
    (∑ c in Finset.range (n * m), f c) =
      ∑ b in Finset.range m, ∑ t in Finset.range n, f (b * n + t) := by
  induction m with
  | zero => simp
  | succ m ih =>
    rw [Nat.mul_succ, sum_range_add_split, ih, Finset.sum_range_succ]
    congr 1
    apply Finset.sum_congr rfl
    intro t ht
    rw [mul_comm m n]

lemma MatrixMultiply_cpu_length (l r y : Tensor) (α : ℚ) :
    (MatrixMultiply_cpu l r y α).v.length = y.v.length := by
  rw [MatrixMultiply_cpu_def]
  by_cases hcond : l.bd = 1 ∧ r.bd = y.bd
  · rw [if_pos hcond]; simp
  · rw [if_neg hcond]
    exact (foldl_preserve_length _
      (fun w b => batchAddInto_length y.rows y.cols y.bd _ b w) _ _).trans
      (List.length_map _ _)

lemma MatrixMultiply_gpu_length (l r y : Tensor) (α : ℚ) :
    (MatrixMultiply_gpu l r y α).v.length = y.v.length := by
  rw [MatrixMultiply_gpu_def]
  by_cases hcond : l.bd = 1 ∧ r.bd = y.bd
  · rw [if_pos hcond]; simp
  · rw [if_neg hcond]
    exact foldl_preserve_length _
      (fun w b => sgemm_length _ _ _ _ _ _ _ _ _ _ _ _ _ w _ _) _ _

lemma MatrixTranspMultiplyAcc_cpu_length (l r y : Tensor) :
    (MatrixTranspMultiplyAcc_cpu l r y).v.length = y.v.length := by
  rw [MatrixTranspMultiplyAcc_cpu_def]
  by_cases hcond : l.bd = 1 ∧ y.bd = r.bd
  · rw [if_pos hcond]; simp
  · rw [if_neg hcond]
    exact foldl_preserve_length _
      (fun w b => batchAddInto_length y.rows y.cols y.bd _ b w) _ _

lemma MatrixTranspMultiplyAcc_gpu_length (l r y : Tensor) :
    (MatrixTranspMultiplyAcc_gpu l r y).v.length = y.v.length := by
  rw [← TM_cpu_eq_gpu]
  exact MatrixTranspMultiplyAcc_cpu_length l r y

lemma MatrixMultiplyTranspAcc_cpu_length (l r y : Tensor) :
    (MatrixMultiplyTranspAcc_cpu l r y).v.length = y.v.length := by
  rw [MatrixMultiplyTranspAcc_cpu_def]
  by_cases hcond : y.bd = 1 ∧ l.bd = r.bd
  · rw [if_pos hcond]; simp
  · rw [if_neg hcond]
    exact foldl_preserve_length _
      (fun w b => batchAddInto_length y.rows y.cols y.bd _ b w) _ _

lemma MatrixMultiplyTranspAcc_gpu_length (l r y : Tensor) :
    (MatrixMultiplyTranspAcc_gpu l r y).v.length = y.v.length := by
  rw [← MT_cpu_eq_gpu]
  exact MatrixMultiplyTranspAcc_cpu_length l r y

lemma tensor_ext_mat (t1 t2 : Tensor) (hr : t1.rows = t2.rows) (hc : t1.cols = t2.cols)
    (hb : t1.bd = t2.bd) (hlen : t1.v.length = t2.v.length)
    (hwf1 : t1.v.length = t1.rows * t1.cols * t1.bd)
    (hmat : ∀ b i j, b < t1.bd → i < t1.rows → j < t1.cols → t1.mat b i j = t2.mat b i j) :
    t1 = t2 := by
  obtain ⟨r1, c1, d1, v1⟩ := t1
  obtain ⟨r2, c2, d2, v2⟩ := t2
  simp only at hr hc hb hlen hwf1 hmat
  subst hr hc hb
  congr 1
  apply list_ext_getD v1 v2 hlen
  intro p hp
  have hr0 : 0 < r1 := by
    rcases Nat.eq_zero_or_pos r1 with h | h
    · rw [hwf1, h, Nat.zero_mul, Nat.zero_mul] at hp; omega
    · exact h
  have hc0 : 0 < c1 := by
    rcases Nat.eq_zero_or_pos c1 with h | h
    · rw [hwf1, h, Nat.mul_zero, Nat.zero_mul] at hp; omega
    · exact h
  have hbs : 0 < r1 * c1 := Nat.mul_pos hr0 hc0
  have hB : p / (r1 * c1) < d1 := by
    apply (Nat.div_lt_iff_lt_mul hbs).mpr
    rw [mul_comm]
    rw [hwf1] at hp
    exact hp
  have hI : p % (r1 * c1) % r1 < r1 := Nat.mod_lt _ hr0
  have hJ : p % (r1 * c1) / r1 < c1 := by
    apply (Nat.div_lt_iff_lt_mul hr0).mpr
    exact Nat.lt_of_lt_of_eq (Nat.mod_lt _ hbs) (mul_comm r1 c1)
  have hpe : p = p / (r1 * c1) * (r1 * c1) + p % (r1 * c1) / r1 * r1 + p % (r1 * c1) % r1 := by
    have h1 := Nat.div_add_mod' p (r1 * c1)
    have h2 := Nat.div_add_mod' (p % (r1 * c1)) r1
    omega
  have key := hmat _ _ _ hB hI hJ
  rw [Tensor.mat_def, Tensor.mat_def] at key
  simp only at key
  rw [Nat.mod_eq_of_lt hB] at key
  rw [← hpe] at key
  exact key

end Lemmas

/-- Modelled from the spec: first setting every element of the output
tensor to zero (used by the idempotence property for the forward multiply). -/
def Tensor.zeroed (t : Tensor) : Tensor :=
  { t with v := t.v.map (fun _ => (0 : ℚ)) }

/-- Modelled from the spec: reference semantics for the forward multiply as
k independent single-matrix multiplies of L against each R[b], each
accumulated into Y[b] with the same scalar α (the per-batch loop that the
wide-collapse dispatch must be equivalent to). -/
def MatrixMultiply_perBatch (l r y : Tensor) (α : ℚ) : Tensor :=
  Tensor.mk y.rows y.cols y.bd
    ((List.range y.v.length).map fun p =>
      α * y.v.getD p 0 +
        ∑ k in Finset.range l.cols,
          l.mat 0 (p % (y.rows * y.cols) % y.rows) k *
          r.mat (p / (y.rows * y.cols)) k (p % (y.rows * y.cols) / y.rows))

section Lemmas2

lemma zeroed_length (t : Tensor) : (Tensor.zeroed t).v.length = t.v.length := by
  simp [Tensor.zeroed]

lemma MM_cpu_zero_eq (l r y : Tensor) :
    MatrixMultiply_cpu l r y 0 = MatrixMultiply_cpu l r (Tensor.zeroed y) 1 := by
  rw [MatrixMultiply_cpu_def, MatrixMultiply_cpu_def]
  simp only [Tensor.zeroed]
  have hbase : (y.v.map (fun _ => (0 : ℚ))).map (fun x => (1 : ℚ) * x) =
      y.v.map (fun x => (0 : ℚ) * x) := by
    rw [List.map_map]
    apply List.map_congr_left
    intro a ha
    simp
  rw [hbase]

lemma perBatch_mat (l r y : Tensor) (α : ℚ)
    (hw : y.v.length = y.rows * y.cols * y.bd)
    (b i j : Nat) (hb : b < y.bd) (hi : i < y.rows) (hj : j < y.cols) :
    (MatrixMultiply_perBatch l r y α).mat b i j =
      α * y.mat b i j + ∑ k in Finset.range l.cols, l.mat 0 i k * r.mat b k j := by
  have hbmod : b % y.bd = b := Nat.mod_eq_of_lt hb
  have hplt0 : b * (y.rows * y.cols) + j * y.rows + i < y.rows * y.cols * y.bd :=
    flat_idx_lt _ _ _ _ _ _ hb hi hj
  have hplt : b * (y.rows * y.cols) + j * y.rows + i < y.v.length := by
    rw [hw]; exact hplt0
  have hmat : y.mat b i j = y.v.getD (b * (y.rows * y.cols) + j * y.rows + i) 0 := by
    rw [Tensor.mat_def, hbmod]
  rw [MatrixMultiply_perBatch, mat_mk, hbmod, getD_range_map, if_pos hplt]
  have hdb : (b * (y.rows * y.cols) + j * y.rows + i) / (y.rows * y.cols) = b := by
    rw [show b * (y.rows * y.cols) + j * y.rows + i
          = b * (y.rows * y.cols) + (j * y.rows + i) by ring]
    exact mul_add_div_lt _ _ _ (sub_idx_lt _ _ _ _ hi hj)
  have hpm : (b * (y.rows * y.cols) + j * y.rows + i) % (y.rows * y.cols)
      = j * y.rows + i := by
    rw [show b * (y.rows * y.cols) + j * y.rows + i
          = b * (y.rows * y.cols) + (j * y.rows + i) by ring]
    exact mul_add_mod_lt _ _ _ (sub_idx_lt _ _ _ _ hi hj)
  rw [hdb, hpm, mul_add_mod_lt _ _ _ hi, mul_add_div_lt _ _ _ hi, hmat]

lemma MT_cpu_wide_mat (l r y : Tensor)
    (hw : y.v.length = y.rows * y.cols * y.bd)
    (hy1 : y.bd = 1) (hlr : l.bd = r.bd) (hcols2 : l.cols = r.cols)
    (i j : Nat) (hi : i < y.rows) (hj : j < y.cols) :
    (MatrixMultiplyTranspAcc_cpu l r y).mat 0 i j =
      y.mat 0 i j + ∑ b in Finset.range l.bd, ∑ t in Finset.range l.cols,
        l.mat b i t * r.mat b j t := by
  have hplt0 : j * y.rows + i < y.rows * y.cols := sub_idx_lt _ _ _ _ hi hj
  have hplt : j * y.rows + i < y.v.length := by
    rw [hw, hy1, Nat.mul_one]; exact hplt0
  have hmat0 : y.mat 0 i j = y.v.getD (j * y.rows + i) 0 := by
    rw [Tensor.mat_def]
    simp
  rw [MatrixMultiplyTranspAcc_cpu_def, mat_mk, if_pos ⟨hy1, hlr⟩]
  simp only [Nat.zero_mod, Nat.zero_mul, Nat.zero_add]
  rw [wideAddInto_getD _ _ _ _ _ hplt, if_pos hplt0,
    mul_add_mod_lt _ _ _ hi, mul_add_div_lt _ _ _ hi, hmat0]
  congr 1
  rw [sum_range_mul_split l.cols l.bd]
  apply Finset.sum_congr rfl
  intro b hb
  apply Finset.sum_congr rfl
  intro t ht
  have hbb : b < l.bd := Finset.mem_range.mp hb
  have hL : l.mat b i t = l.v.getD ((b * l.cols + t) * l.rows + i) 0 := by
    rw [Tensor.mat_def, Nat.mod_eq_of_lt hbb]
    congr 1
    ring
  have hR : r.mat b j t = r.v.getD ((b * l.cols + t) * r.rows + j) 0 := by
    rw [Tensor.mat_def, ← hlr, Nat.mod_eq_of_lt hbb, hcols2]
    congr 1
    ring
  rw [hL, hR]

lemma TM_cpu_bcast_mat (l r y : Tensor)
    (hw : y.v.length = y.rows * y.cols * y.bd)
    (hy1 : y.bd = 1) (hloop : ¬(l.bd = 1 ∧ y.bd = r.bd))
    (i j : Nat) (hi : i < y.rows) (hj : j < y.cols) :
    (MatrixTranspMultiplyAcc_cpu l r y).mat 0 i j =
      y.mat 0 i j + ∑ b in Finset.range (max l.bd r.bd),
        ∑ k in Finset.range l.rows, l.mat b k i * r.mat b k j := by
  have hplt0 : j * y.rows + i < y.rows * y.cols := sub_idx_lt _ _ _ _ hi hj
  have hplt : j * y.rows + i < y.v.length := by
    rw [hw, hy1, Nat.mul_one]; exact hplt0
  have hmat0 : y.mat 0 i j = y.v.getD (j * y.rows + i) 0 := by
    rw [Tensor.mat_def]
    simp
  rw [MatrixTranspMultiplyAcc_cpu_def, mat_mk, if_neg hloop]
  simp only [Nat.zero_mod, Nat.zero_mul, Nat.zero_add]
  rw [foldl_batchAddInto_getD _ _ _ _ _ _ _ hplt, hmat0]
  congr 1
  apply Finset.sum_congr rfl
  intro b hb
  rw [hy1]
  simp only [Nat.mod_one, Nat.zero_mul, Nat.zero_add, Nat.zero_le, true_and, Nat.sub_zero]
  rw [if_pos hplt0, mul_add_mod_lt _ _ _ hi, mul_add_div_lt _ _ _ hi]

lemma MT_cpu_bcast_mat (l r y : Tensor)
    (hw : y.v.length = y.rows * y.cols * y.bd)
    (hy1 : y.bd = 1) (hloop : ¬(y.bd = 1 ∧ l.bd = r.bd))
    (i j : Nat) (hi : i < y.rows) (hj : j < y.cols) :
    (MatrixMultiplyTranspAcc_cpu l r y).mat 0 i j =
      y.mat 0 i j + ∑ b in Finset.range (max l.bd r.bd),
        ∑ k in Finset.range l.cols, l.mat b i k * r.mat b j k := by
  have hplt0 : j * y.rows + i < y.rows * y.cols := sub_idx_lt _ _ _ _ hi hj
  have hplt : j * y.rows + i < y.v.length := by
    rw [hw, hy1, Nat.mul_one]; exact hplt0
  have hmat0 : y.mat 0 i j = y.v.getD (j * y.rows + i) 0 := by
    rw [Tensor.mat_def]
    simp
  rw [MatrixMultiplyTranspAcc_cpu_def, mat_mk, if_neg hloop]
  simp only [Nat.zero_mod, Nat.zero_mul, Nat.zero_add]
  rw [foldl_batchAddInto_getD _ _ _ _ _ _ _ hplt, hmat0]
  congr 1
  apply Finset.sum_congr rfl
  intro b hb
  rw [hy1]
  simp only [Nat.mod_one, Nat.zero_mul, Nat.zero_add, Nat.zero_le, true_and, Nat.sub_zero]
  rw [if_pos hplt0, mul_add_mod_lt _ _ _ hi, mul_add_div_lt _ _ _ hi]

lemma MM_cpu_eq_perBatch (l r y : Tensor) (α : ℚ)
    (hw : y.v.length = y.rows * y.cols * y.bd)
    (hl1 : l.bd = 1) (hrb : r.bd = y.bd) (hcols : y.cols = r.cols) :
    MatrixMultiply_cpu l r y α = MatrixMultiply_perBatch l r y α := by
  apply tensor_ext_mat
  · rfl
  · rfl
  · rfl
  · rw [MatrixMultiply_cpu_length]
    show y.v.length = ((List.range y.v.length).map _).length
    rw [List.length_map, List.length_range]
  · show (MatrixMultiply_cpu l r y α).v.length = y.rows * y.cols * y.bd
    rw [MatrixMultiply_cpu_length]
    exact hw
  · intro b i j hb hi hj
    have hb' : b < y.bd := hb
    have hi' : i < y.rows := hi
    have hj' : j < y.cols := hj
    show (MatrixMultiply_cpu l r y α).mat b i j = (MatrixMultiply_perBatch l r y α).mat b i j
    rw [MatrixMultiply_cpu_mat l r y α hw hrb hcols b i j hb' hi' hj',
      perBatch_mat l r y α hw b i j hb' hi' hj']
    congr 1
    apply Finset.sum_congr rfl
    intro k hk
    have : l.mat b i k = l.mat 0 i k := by
      rw [Tensor.mat_def, Tensor.mat_def, hl1, Nat.mod_one, Nat.mod_one]
    rw [this]

end Lemmas2

/-- Concrete 1×1 tensor with a single batch, used to instantiate theorems. -/
def s1 : Tensor := Tensor.mk 1 1 1 [2]

/-- Concrete 1×1 tensor with two batch elements. -/
def s2a : Tensor := Tensor.mk 1 1 2 [3, 5]

/-- Concrete 1×1 tensor with two batch elements (used as an output). -/
def s2b : Tensor := Tensor.mk 1 1 2 [7, 11]

/-- Concrete 1×1 tensor with two batch elements (a second right operand). -/
def s2c : Tensor := Tensor.mk 1 1 2 [2, 9]

/-- Concrete 1×1 tensor with a single batch (used as a summed output). -/
def s1b : Tensor := Tensor.mk 1 1 1 [10]

/-- C1: for every MatrixMultiply call with valid shapes (cols_L = rows_R,
rows_Y = rows_L, cols_Y = cols_R, R.batch_count = Y.batch_count,
L.batch_count ∈ {1, Y.batch_count}), every batch index b < Y.batch_count and
every entry (i, j), the output satisfies
Y[b] = α·Y_prev[b] + L[b']·R[b], where b' = b if L.batch_count > 1 and
b' = 0 otherwise, on both the CPU and the GPU code path. -/
theorem C1_forward_batch_semantics (l r y : Tensor) (α : ℚ)
    (hwl : l.wf) (hwr : r.wf) (hwy : y.wf)
    (h1 : l.cols = r.rows) (h2 : y.rows = l.rows) (h3 : y.cols = r.cols)
    (h4 : r.bd = y.bd) (h5 : l.bd = 1 ∨ l.bd = y.bd)
    (b i j : Nat) (hb : b < y.bd) (hi : i < y.rows) (hj : j < y.cols) :
    (MatrixMultiply_cpu l r y α).mat b i j =
        α * y.mat b i j + ∑ k in Finset.range l.cols,
          l.mat (if 1 < l.bd then b else 0) i k * r.mat b k j ∧
    (MatrixMultiply_gpu l r y α).mat b i j =
        α * y.mat b i j + ∑ k in Finset.range l.cols,
          l.mat (if 1 < l.bd then b else 0) i k * r.mat b k j := by
  have hbp : ∀ k, l.mat (if 1 < l.bd then b else 0) i k = l.mat b i k := by
    intro k
    by_cases hl : 1 < l.bd
    · rw [if_pos hl]
    · rw [if_neg hl]
      have hl1 : l.bd = 1 := by
        have := hwl.1
        omega
      rw [Tensor.mat_def, Tensor.mat_def, hl1, Nat.mod_one, Nat.mod_one]
  constructor
  · rw [MatrixMultiply_cpu_mat l r y α hwy.2 h4 h3 b i j hb hi hj]
    congr 1
    apply Finset.sum_congr rfl
    intro k hk
    rw [hbp k]
  · rw [MatrixMultiply_gpu_mat l r y α hwy.2 h4 h3 b i j hb hi hj]
    congr 1
    apply Finset.sum_congr rfl
    intro k hk
    rw [hbp k]

/-- Witness for C1 at the concrete broadcast instance l = s1, r = s2a,
y = s2b, α = 3, batch index 1. -/
theorem C1_forward_batch_semantics_witness :
    (MatrixMultiply_cpu s1 s2a s2b 3).mat 1 0 0 =
        3 * s2b.mat 1 0 0 + ∑ k in Finset.range s1.cols,
          s1.mat (if 1 < s1.bd then 1 else 0) 0 k * s2a.mat 1 k 0 ∧
    (MatrixMultiply_gpu s1 s2a s2b 3).mat 1 0 0 =
        3 * s2b.mat 1 0 0 + ∑ k in Finset.range s1.cols,
          s1.mat (if 1 < s1.bd then 1 else 0) 0 k * s2a.mat 1 k 0 :=
  C1_forward_batch_semantics s1 s2a s2b 3 (by decide) (by decide) (by decide)
    (by decide) (by decide) (by decide) (by decide) (by decide)
    1 0 0 (by decide) (by decide) (by decide)

/-- C2: when L has batch_count 1 and R, Y share batch_count k > 1 with valid
shapes, MatrixMultiply takes the wide-matrix path (exactly one backend
multiply call on the GPU path) and both code paths compute exactly the
per-batch reference semantics: k independent multiplies of L against each
R[b], each accumulated into Y[b] with the same α. -/
theorem C2_wide_collapse_refinement (l r y : Tensor) (α : ℚ)
    (hwl : l.wf) (hwr : r.wf) (hwy : y.wf)
    (h1 : l.cols = r.rows) (h2 : y.rows = l.rows) (h3 : y.cols = r.cols)
    (hl1 : l.bd = 1) (hrb : r.bd = y.bd) (hk : 1 < y.bd) :
    MatrixMultiply_gpu_calls l r y = 1 ∧
    MatrixMultiply_cpu l r y α = MatrixMultiply_perBatch l r y α ∧
    MatrixMultiply_gpu l r y α = MatrixMultiply_perBatch l r y α := by
  refine ⟨?_, ?_, ?_⟩
  · rw [MatrixMultiply_gpu_calls, if_pos ⟨hl1, hrb⟩]
  · exact MM_cpu_eq_perBatch l r y α hwy.2 hl1 hrb h3
  · rw [← MM_cpu_eq_gpu l r y α hwy.2]
    exact MM_cpu_eq_perBatch l r y α hwy.2 hl1 hrb h3

/-- Witness for C2 at the concrete instance l = s1 (batch 1), r = s2a,
y = s2b (batch 2), α = 2. -/
theorem C2_wide_collapse_refinement_witness :
    MatrixMultiply_gpu_calls s1 s2a s2b = 1 ∧
    MatrixMultiply_cpu s1 s2a s2b 2 = MatrixMultiply_perBatch s1 s2a s2b 2 ∧
    MatrixMultiply_gpu s1 s2a s2b 2 = MatrixMultiply_perBatch s1 s2a s2b 2 :=
  C2_wide_collapse_refinement s1 s2a s2b 2 (by decide) (by decide) (by decide)
    (by decide) (by decide) (by decide) (by decide) (by decide) (by decide)

/-- C3: for L, R of equal batch_count k > 1 and Y of batch_count 1 with
valid shapes (cols_L = cols_R, Y of shape rows_L × rows_R),
MatrixMultiplyTranspAcc issues a single wide-matrix call and every output
entry equals its prior contents plus the sum over the batch of the per-batch
products L[b]·Rᵗ[b], on both code paths. -/
theorem C3_batch_sum_collapse (l r y : Tensor)
    (hwl : l.wf) (hwr : r.wf) (hwy : y.wf)
    (hc : l.cols = r.cols) (h2 : y.rows = l.rows) (h3 : y.cols = r.rows)
    (hlr : l.bd = r.bd) (hk : 1 < l.bd) (hy1 : y.bd = 1)
    (i j : Nat) (hi : i < y.rows) (hj : j < y.cols) :
    MatrixMultiplyTranspAcc_gpu_calls l r y = 1 ∧
    (MatrixMultiplyTranspAcc_cpu l r y).mat 0 i j =
        y.mat 0 i j + ∑ b in Finset.range l.bd, ∑ t in Finset.range l.cols,
          l.mat b i t * r.mat b j t ∧
    (MatrixMultiplyTranspAcc_gpu l r y).mat 0 i j =
        y.mat 0 i j + ∑ b in Finset.range l.bd, ∑ t in Finset.range l.cols,
          l.mat b i t * r.mat b j t := by
  refine ⟨?_, ?_, ?_⟩
  · rw [MatrixMultiplyTranspAcc_gpu_calls, if_pos ⟨hy1, hlr⟩]
  · exact MT_cpu_wide_mat l r y hwy.2 hy1 hlr hc i j hi hj
  · rw [← MT_cpu_eq_gpu]
    exact MT_cpu_wide_mat l r y hwy.2 hy1 hlr hc i j hi hj

/-- Witness for C3 at the concrete instance l = s2a, r = s2c (both batch 2),
y = s1b (batch 1). -/
theorem C3_batch_sum_collapse_witness :
    MatrixMultiplyTranspAcc_gpu_calls s2a s2c s1b = 1 ∧
    (MatrixMultiplyTranspAcc_cpu s2a s2c s1b).mat 0 0 0 =
        s1b.mat 0 0 0 + ∑ b in Finset.range s2a.bd, ∑ t in Finset.range s2a.cols,
          s2a.mat b 0 t * s2c.mat b 0 t ∧
    (MatrixMultiplyTranspAcc_gpu s2a s2c s1b).mat 0 0 0 =
        s1b.mat 0 0 0 + ∑ b in Finset.range s2a.bd, ∑ t in Finset.range s2a.cols,
          s2a.mat b 0 t * s2c.mat b 0 t :=
  C3_batch_sum_collapse s2a s2c s1b (by decide) (by decide) (by decide)
    (by decide) (by decide) (by decide) (by decide) (by decide) (by decide)
    0 0 (by decide) (by decide)

/-- C4: for every valid MatrixTranspMultiplyAcc call (rows_L = rows_R, Y of
shape cols_L × cols_R, batch counts valid for the batch configuration), the
result is pure accumulation with implicit scalar 1: for each batch index b,
Y[b] = Y_prev[b] + Lᵗ[b']·R[b] with b' = b when L.batch_count > 1 and b' = 0
otherwise; the GPU path issues a single wide call exactly when
L.batch_count = 1 and Y.batch_count = R.batch_count, and otherwise one call
per batch index up to max(L.batch_count, R.batch_count) with batch-count-1
operands reused at every index. Both code paths agree. -/
theorem C4_left_transpose_accumulate (l r y : Tensor)
    (hwl : l.wf) (hwr : r.wf) (hwy : y.wf)
    (h1 : l.rows = r.rows) (h2 : y.rows = l.cols) (h3 : y.cols = r.cols)
    (hmax : y.bd = max l.bd r.bd)
    (h5 : l.bd = 1 ∨ l.bd = y.bd) (h6 : r.bd = 1 ∨ r.bd = y.bd)
    (b i j : Nat) (hb : b < y.bd) (hi : i < y.rows) (hj : j < y.cols) :
    (MatrixTranspMultiplyAcc_gpu_calls l r y
        = if l.bd = 1 ∧ y.bd = r.bd then 1 else max l.bd r.bd) ∧
    (MatrixTranspMultiplyAcc_cpu l r y).mat b i j =
        y.mat b i j + ∑ k in Finset.range l.rows,
          l.mat (if 1 < l.bd then b else 0) k i * r.mat b k j ∧
    (MatrixTranspMultiplyAcc_gpu l r y).mat b i j =
        y.mat b i j + ∑ k in Finset.range l.rows,
          l.mat (if 1 < l.bd then b else 0) k i * r.mat b k j := by
  have hbp : ∀ k, l.mat (if 1 < l.bd then b else 0) k i = l.mat b k i := by
    intro k
    by_cases hl : 1 < l.bd
    · rw [if_pos hl]
    · rw [if_neg hl]
      have hl1 : l.bd = 1 := by
        have := hwl.1
        omega
      rw [Tensor.mat_def, Tensor.mat_def, hl1, Nat.mod_one, Nat.mod_one]
  refine ⟨rfl, ?_, ?_⟩
  · rw [TM_cpu_mat l r y hwy.2 hmax h3 b i j hb hi hj]
    congr 1
    apply Finset.sum_congr rfl
    intro k hk
    rw [hbp k]
  · rw [← TM_cpu_eq_gpu, TM_cpu_mat l r y hwy.2 hmax h3 b i j hb hi hj]
    congr 1
    apply Finset.sum_congr rfl
    intro k hk
    rw [hbp k]

/-- Witness for C4 at the concrete broadcast instance l = s1 (batch 1),
r = s2a, y = s2b (batch 2), batch index 1. -/
theorem C4_left_transpose_accumulate_witness :
    (MatrixTranspMultiplyAcc_gpu_calls s1 s2a s2b
        = if s1.bd = 1 ∧ s2b.bd = s2a.bd then 1 else max s1.bd s2a.bd) ∧
    (MatrixTranspMultiplyAcc_cpu s1 s2a s2b).mat 1 0 0 =
        s2b.mat 1 0 0 + ∑ k in Finset.range s1.rows,
          s1.mat (if 1 < s1.bd then 1 else 0) k 0 * s2a.mat 1 k 0 ∧
    (MatrixTranspMultiplyAcc_gpu s1 s2a s2b).mat 1 0 0 =
        s2b.mat 1 0 0 + ∑ k in Finset.range s1.rows,
          s1.mat (if 1 < s1.bd then 1 else 0) k 0 * s2a.mat 1 k 0 :=
  C4_left_transpose_accumulate s1 s2a s2b (by decide) (by decide) (by decide)
    (by decide) (by decide) (by decide) (by decide) (by decide) (by decide)
    1 0 0 (by decide) (by decide) (by decide)

/-- C9: when a transpose-accumulate entry point takes its looped path while
Y.batch_count = 1 and max(L.batch_count, R.batch_count) = k > 1, all k
per-batch products accumulate into the same single Y slot: the final Y
equals its prior contents plus the sum over b < k of the per-batch products,
with batch-count-1 operands reused at every index, on both code paths. -/
theorem C9_loop_into_single_slot (l r y : Tensor)
    (hwl : l.wf) (hwr : r.wf) (hwy : y.wf)
    (hy1 : y.bd = 1) (hk : 1 < max l.bd r.bd)
    (i j : Nat) (hi : i < y.rows) (hj : j < y.cols) :
    ((MatrixTranspMultiplyAcc_cpu l r y).mat 0 i j =
        y.mat 0 i j + ∑ b in Finset.range (max l.bd r.bd),
          ∑ k in Finset.range l.rows, l.mat b k i * r.mat b k j ∧
     (MatrixTranspMultiplyAcc_gpu l r y).mat 0 i j =
        y.mat 0 i j + ∑ b in Finset.range (max l.bd r.bd),
          ∑ k in Finset.range l.rows, l.mat b k i * r.mat b k j) ∧
    (l.bd ≠ r.bd →
      (MatrixMultiplyTranspAcc_cpu l r y).mat 0 i j =
          y.mat 0 i j + ∑ b in Finset.range (max l.bd r.bd),
            ∑ k in Finset.range l.cols, l.mat b i k * r.mat b j k ∧
      (MatrixMultiplyTranspAcc_gpu l r y).mat 0 i j =
          y.mat 0 i j + ∑ b in Finset.range (max l.bd r.bd),
            ∑ k in Finset.range l.cols, l.mat b i k * r.mat b j k) := by
  have hloop : ¬(l.bd = 1 ∧ y.bd = r.bd) := by
    rintro ⟨ha, hbq⟩
    have := hwr.1
    omega
  constructor
  · constructor
    · exact TM_cpu_bcast_mat l r y hwy.2 hy1 hloop i j hi hj
    · rw [← TM_cpu_eq_gpu]
      exact TM_cpu_bcast_mat l r y hwy.2 hy1 hloop i j hi hj
  · intro hne
    have hloop2 : ¬(y.bd = 1 ∧ l.bd = r.bd) := by
      rintro ⟨_, hq⟩
      exact hne hq
    constructor
    · exact MT_cpu_bcast_mat l r y hwy.2 hy1 hloop2 i j hi hj
    · rw [← MT_cpu_eq_gpu]
      exact MT_cpu_bcast_mat l r y hwy.2 hy1 hloop2 i j hi hj

/-- Witness for C9 at the concrete instance l = s2a (batch 2), r = s1
(batch 1), y = s1b (batch 1). -/
theorem C9_loop_into_single_slot_witness :
    ((MatrixTranspMultiplyAcc_cpu s2a s1 s1b).mat 0 0 0 =
        s1b.mat 0 0 0 + ∑ b in Finset.range (max s2a.bd s1.bd),
          ∑ k in Finset.range s2a.rows, s2a.mat b k 0 * s1.mat b k 0 ∧
     (MatrixTranspMultiplyAcc_gpu s2a s1 s1b).mat 0 0 0 =
        s1b.mat 0 0 0 + ∑ b in Finset.range (max s2a.bd s1.bd),
          ∑ k in Finset.range s2a.rows, s2a.mat b k 0 * s1.mat b k 0) ∧
    (s2a.bd ≠ s1.bd →
      (MatrixMultiplyTranspAcc_cpu s2a s1 s1b).mat 0 0 0 =
          s1b.mat 0 0 0 + ∑ b in Finset.range (max s2a.bd s1.bd),
            ∑ k in Finset.range s2a.cols, s2a.mat b 0 k * s1.mat b 0 k ∧
      (MatrixMultiplyTranspAcc_gpu s2a s1 s1b).mat 0 0 0 =
          s1b.mat 0 0 0 + ∑ b in Finset.range (max s2a.bd s1.bd),
            ∑ k in Finset.range s2a.cols, s2a.mat b 0 k * s1.mat b 0 k) :=
  C9_loop_into_single_slot s2a s1 s1b (by decide) (by decide) (by decide)
    (by decide) (by decide) 0 0 (by decide) (by decide)

/-- C5: for every entry point and identical inputs (well-formed output
tensor), the CPU code path and the GPU (accelerator) code path produce
exactly the same output tensor under exact arithmetic. -/
theorem C5_cpu_gpu_equivalence (l r y : Tensor) (α : ℚ) (hwy : y.wf) :
    MatrixMultiply_cpu l r y α = MatrixMultiply_gpu l r y α ∧
    MatrixTranspMultiplyAcc_cpu l r y = MatrixTranspMultiplyAcc_gpu l r y ∧
    MatrixMultiplyTranspAcc_cpu l r y = MatrixMultiplyTranspAcc_gpu l r y :=
  ⟨MM_cpu_eq_gpu l r y α hwy.2, TM_cpu_eq_gpu l r y, MT_cpu_eq_gpu l r y⟩

/-- Witness for C5 at the concrete instance l = s1, r = s2a, y = s2b, α = 3. -/
theorem C5_cpu_gpu_equivalence_witness :
    MatrixMultiply_cpu s1 s2a s2b 3 = MatrixMultiply_gpu s1 s2a s2b 3 ∧
    MatrixTranspMultiplyAcc_cpu s1 s2a s2b = MatrixTranspMultiplyAcc_gpu s1 s2a s2b ∧
    MatrixMultiplyTranspAcc_cpu s1 s2a s2b = MatrixMultiplyTranspAcc_gpu s1 s2a s2b :=
  C5_cpu_gpu_equivalence s1 s2a s2b 3 (by decide)

/-- C6: calling the forward multiply with α = 0 on a Y holding arbitrary
prior data produces the same output buffer as first zeroing Y and calling
with α = 1, on both code paths. -/
theorem C6_zero_scalar_idempotence (l r y : Tensor) (hwy : y.wf) :
    MatrixMultiply_cpu l r y 0 = MatrixMultiply_cpu l r (Tensor.zeroed y) 1 ∧
    MatrixMultiply_gpu l r y 0 = MatrixMultiply_gpu l r (Tensor.zeroed y) 1 := by
  have hz : (Tensor.zeroed y).v.length =
      (Tensor.zeroed y).rows * (Tensor.zeroed y).cols * (Tensor.zeroed y).bd := by
    show (y.v.map _).length = y.rows * y.cols * y.bd
    rw [List.length_map]
    exact hwy.2
  refine ⟨MM_cpu_zero_eq l r y, ?_⟩
  rw [← MM_cpu_eq_gpu l r y 0 hwy.2, ← MM_cpu_eq_gpu l r (Tensor.zeroed y) 1 hz]
  exact MM_cpu_zero_eq l r y

/-- Witness for C6 at the concrete instance l = s1, r = s2a, y = s2b. -/
theorem C6_zero_scalar_idempotence_witness :
    MatrixMultiply_cpu s1 s2a s2b 0 = MatrixMultiply_cpu s1 s2a (Tensor.zeroed s2b) 1 ∧
    MatrixMultiply_gpu s1 s2a s2b 0 = MatrixMultiply_gpu s1 s2a (Tensor.zeroed s2b) 1 :=
  C6_zero_scalar_idempotence s1 s2a s2b (by decide)

/-- C7: every entry point only rewrites the output tensor Y in place: the
result keeps Y's dimension descriptor and buffer size exactly (no tensor is
created, resized or destroyed; the L and R arguments are read-only in this
functional model, mirroring their const-reference types in the source). -/
theorem C7_frame_only_output (l r y : Tensor) (α : ℚ) :
    ((MatrixMultiply_cpu l r y α).rows = y.rows ∧
     (MatrixMultiply_cpu l r y α).cols = y.cols ∧
     (MatrixMultiply_cpu l r y α).bd = y.bd ∧
     (MatrixMultiply_cpu l r y α).v.length = y.v.length) ∧
    ((MatrixMultiply_gpu l r y α).rows = y.rows ∧
     (MatrixMultiply_gpu l r y α).cols = y.cols ∧
     (MatrixMultiply_gpu l r y α).bd = y.bd ∧
     (MatrixMultiply_gpu l r y α).v.length = y.v.length) ∧
    ((MatrixTranspMultiplyAcc_cpu l r y).rows = y.rows ∧
     (MatrixTranspMultiplyAcc_cpu l r y).cols = y.cols ∧
     (MatrixTranspMultiplyAcc_cpu l r y).bd = y.bd ∧
     (MatrixTranspMultiplyAcc_cpu l r y).v.length = y.v.length) ∧
    ((MatrixTranspMultiplyAcc_gpu l r y).rows = y.rows ∧
     (MatrixTranspMultiplyAcc_gpu l r y).cols = y.cols ∧
     (MatrixTranspMultiplyAcc_gpu l r y).bd = y.bd ∧
     (MatrixTranspMultiplyAcc_gpu l r y).v.length = y.v.length) ∧
    ((MatrixMultiplyTranspAcc_cpu l r y).rows = y.rows ∧
     (MatrixMultiplyTranspAcc_cpu l r y).cols = y.cols ∧
     (MatrixMultiplyTranspAcc_cpu l r y).bd = y.bd ∧
     (MatrixMultiplyTranspAcc_cpu l r y).v.length = y.v.length) ∧
    ((MatrixMultiplyTranspAcc_gpu l r y).rows = y.rows ∧
     (MatrixMultiplyTranspAcc_gpu l r y).cols = y.cols ∧
     (MatrixMultiplyTranspAcc_gpu l r y).bd = y.bd ∧
     (MatrixMultiplyTranspAcc_gpu l r y).v.length = y.v.length) :=
  ⟨⟨rfl, rfl, rfl, MatrixMultiply_cpu_length l r y α⟩,
   ⟨rfl, rfl, rfl, MatrixMultiply_gpu_length l r y α⟩,
   ⟨rfl, rfl, rfl, MatrixTranspMultiplyAcc_cpu_length l r y⟩,
   ⟨rfl, rfl, rfl, MatrixTranspMultiplyAcc_gpu_length l r y⟩,
   ⟨rfl, rfl, rfl, MatrixMultiplyTranspAcc_cpu_length l r y⟩,
   ⟨rfl, rfl, rfl, MatrixMultiplyTranspAcc_gpu_length l r y⟩⟩

/-- C10: each entry point is a deterministic, stateless function of its
arguments: two calls with equal input tensors (and equal scalar where
applicable) produce equal output tensors, with no dependence on any state
outside the arguments. -/
theorem C10_deterministic_stateless (l l2 r r2 y y2 : Tensor) (α α2 : ℚ)
    (hl : l = l2) (hr : r = r2) (hy : y = y2) (ha : α = α2) :
    MatrixMultiply_cpu l r y α = MatrixMultiply_cpu l2 r2 y2 α2 ∧
    MatrixMultiply_gpu l r y α = MatrixMultiply_gpu l2 r2 y2 α2 ∧
    MatrixTranspMultiplyAcc_cpu l r y = MatrixTranspMultiplyAcc_cpu l2 r2 y2 ∧
    MatrixTranspMultiplyAcc_gpu l r y = MatrixTranspMultiplyAcc_gpu l2 r2 y2 ∧
    MatrixMultiplyTranspAcc_cpu l r y = MatrixMultiplyTranspAcc_cpu l2 r2 y2 ∧
    MatrixMultiplyTranspAcc_gpu l r y = MatrixMultiplyTranspAcc_gpu l2 r2 y2 := by
  subst hl hr hy ha
  exact ⟨rfl, rfl, rfl, rfl, rfl, rfl⟩

/-- Witness for C10 at the concrete instance l = s1, r = s2a, y = s2b, α = 3. -/
theorem C10_deterministic_stateless_witness :
    MatrixMultiply_cpu s1 s2a s2b 3 = MatrixMultiply_cpu s1 s2a s2b 3 ∧
    MatrixMultiply_gpu s1 s2a s2b 3 = MatrixMultiply_gpu s1 s2a s2b 3 ∧
    MatrixTranspMultiplyAcc_cpu s1 s2a s2b = MatrixTranspMultiplyAcc_cpu s1 s2a s2b ∧
    MatrixTranspMultiplyAcc_gpu s1 s2a s2b = MatrixTranspMultiplyAcc_gpu s1 s2a s2b ∧
    MatrixMultiplyTranspAcc_cpu s1 s2a s2b = MatrixMultiplyTranspAcc_cpu s1 s2a s2b ∧
    MatrixMultiplyTranspAcc_gpu s1 s2a s2b = MatrixMultiplyTranspAcc_gpu s1 s2a s2b :=
  C10_deterministic_stateless s1 s1 s2a s2a s2b s2b 3 3 rfl rfl rfl rfl

/-- Concrete left operand of the 3×4, batch-2 scenario (entries 1..24,
column-major per batch element). -/
def L8 : Tensor :=
  Tensor.mk 3 4 2
    [1, 2, 3, 4, 5, 6, 7, 8, 9, 10, 11, 12,
     13, 14, 15, 16, 17, 18, 19, 20, 21, 22, 23, 24]

/-- Concrete right operand of the scenario: 3×1 with batch_count 2. -/
def R8 : Tensor := Tensor.mk 3 1 2 [1, 2, 3, 4, 5, 6]

/-- Concrete output of the scenario: 4×1 with batch_count 1, zero prior. -/
def Y8 : Tensor := Tensor.mk 4 1 1 [0, 0, 0, 0]

/-- C8 counterexample: at the scenario's shapes (L 3×4 batch 2, R 3×1
batch 2, Y 4×1 batch 1), the entry point named by the claim,
MatrixMultiplyTranspAcc, does NOT produce Y = prior + the batch-summed
(shape-adjusted) per-batch products: its L·Rᵗ wide path reads past R's
buffer at these shapes, so entry (0,0) is 17 instead of the claimed 226. -/
theorem C8_as_stated_counterexample :
    ¬ ((MatrixMultiplyTranspAcc_cpu L8 R8 Y8).mat 0 0 0 =
        Y8.mat 0 0 0 + ∑ b in Finset.range 2, ∑ k in Finset.range 3,
          L8.mat b k 0 * R8.mat b k 0) := by
  have hL : (MatrixMultiplyTranspAcc_cpu L8 R8 Y8).mat 0 0 0 = 17 := by
    rw [MatrixMultiplyTranspAcc_cpu_def, mat_mk]
    norm_num [L8, R8, Y8, wideAddInto, getD_range_map, Finset.sum_range_succ,
      Finset.sum_range_zero, List.getD_cons_zero, List.getD_cons_succ, List.getD_nil]
  have hR : Y8.mat 0 0 0 + (∑ b in Finset.range 2, ∑ k in Finset.range 3,
      L8.mat b k 0 * R8.mat b k 0) = 226 := by
    norm_num [L8, R8, Y8, Tensor.mat, Tensor.batch_off, Tensor.batch_size,
      Finset.sum_range_succ, Finset.sum_range_zero, List.getD_cons_zero,
      List.getD_cons_succ, List.getD_nil]
  intro h
  rw [hL, hR] at h
  exact absurd h (by norm_num)

/-- C8 amended: at those shapes it is the left-transpose entry point,
MatrixTranspMultiplyAcc, that produces Y equal to its prior contents plus
the per-batch products Lᵗ[b]·R[b] summed across both batch elements into
the single Y slot — stated for every output entry on both code paths. -/
theorem C8_left_transpose_concrete :
    ((MatrixTranspMultiplyAcc_cpu L8 R8 Y8).mat 0 0 0 =
        Y8.mat 0 0 0 + ∑ b in Finset.range 2, ∑ k in Finset.range 3,
          L8.mat b k 0 * R8.mat b k 0) ∧
    ((MatrixTranspMultiplyAcc_cpu L8 R8 Y8).mat 0 1 0 =
        Y8.mat 0 1 0 + ∑ b in Finset.range 2, ∑ k in Finset.range 3,
          L8.mat b k 1 * R8.mat b k 0) ∧
    ((MatrixTranspMultiplyAcc_cpu L8 R8 Y8).mat 0 2 0 =
        Y8.mat 0 2 0 + ∑ b in Finset.range 2, ∑ k in Finset.range 3,
          L8.mat b k 2 * R8.mat b k 0) ∧
    ((MatrixTranspMultiplyAcc_cpu L8 R8 Y8).mat 0 3 0 =
        Y8.mat 0 3 0 + ∑ b in Finset.range 2, ∑ k in Finset.range 3,
          L8.mat b k 3 * R8.mat b k 0) ∧
    ((MatrixTranspMultiplyAcc_gpu L8 R8 Y8).mat 0 0 0 =
        Y8.mat 0 0 0 + ∑ b in Finset.range 2, ∑ k in Finset.range 3,
          L8.mat b k 0 * R8.mat b k 0) ∧
    ((MatrixTranspMultiplyAcc_gpu L8 R8 Y8).mat 0 1 0 =
        Y8.mat 0 1 0 + ∑ b in Finset.range 2, ∑ k in Finset.range 3,
          L8.mat b k 1 * R8.mat b k 0) ∧
    ((MatrixTranspMultiplyAcc_gpu L8 R8 Y8).mat 0 2 0 =
        Y8.mat 0 2 0 + ∑ b in Finset.range 2, ∑ k in Finset.range 3,
          L8.mat b k 2 * R8.mat b k 0) ∧
    ((MatrixTranspMultiplyAcc_gpu L8 R8 Y8).mat 0 3 0 =
        Y8.mat 0 3 0 + ∑ b in Finset.range 2, ∑ k in Finset.range 3,
          L8.mat b k 3 * R8.mat b k 0) := by
  have hcpu : ∀ i j : Nat, i < Y8.rows → j < Y8.cols →
      (MatrixTranspMultiplyAcc_cpu L8 R8 Y8).mat 0 i j =
        Y8.mat 0 i j + ∑ b in Finset.range 2, ∑ k in Finset.range 3,
          L8.mat b k i * R8.mat b k j := by
    intro i j hi hj
    exact TM_cpu_bcast_mat L8 R8 Y8 (by decide) (by decide) (by decide) i j hi hj
  have hgpu : ∀ i j : Nat, i < Y8.rows → j < Y8.cols →
      (MatrixTranspMultiplyAcc_gpu L8 R8 Y8).mat 0 i j =
        Y8.mat 0 i j + ∑ b in Finset.range 2, ∑ k in Finset.range 3,
          L8.mat b k i * R8.mat b k j := by
    intro i j hi hj
    rw [← TM_cpu_eq_gpu]
    exact hcpu i j hi hj
  exact ⟨hcpu 0 0 (by decide) (by decide), hcpu 1 0 (by decide) (by decide),
    hcpu 2 0 (by decide) (by decide), hcpu 3 0 (by decide) (by decide),
    hgpu 0 0 (by decide) (by decide), hgpu 1 0 (by decide) (by decide),
    hgpu 2 0 (by decide) (by decide), hgpu 3 0 (by decide) (by decide)⟩

end Dynet
